import Mathlib

/-!
# Verification of the AI_CHAT_BOX firmware audio pipeline (src/main.py)

Shallow embedding of the MicroPython firmware in `src/main.py`:
WAV header construction (`create_wav_header`), the two-pass recording
pipeline with edge energy analytics (`record_and_save`), the session
control loop, and playback duty-cycle mapping (`play_wav`).

Modelling conventions:
* Machine integers are `Nat`/`Int`; Python float arithmetic on the
  adaptive threshold and energy averages is modelled exactly in `ℚ`.
* `int.to_bytes(w, 'little')` raises `OverflowError` when the value does
  not fit in `w` bytes, so it is modelled as an `Option`-returning
  encoder (`toBytesLE`).
* MicroPython's `struct.pack('<h', v)` does not range-check: it
  truncates `v` to 16 bits.  It is modelled by `packH`, which always
  yields two bytes.
* External reads (ADC samples) are supplied as explicit input lists; the
  storage file is an explicit byte-list state with a read/write position.
-/

namespace AIChatBox

/-! ## Audio and system parameters (src/main.py lines 23-35) -/

def SAMPLE_RATE : Nat := 8000

def BITS_PER_SAMPLE : Nat := 16

def CHANNELS : Nat := 1

def DC_OFFSET_SAMPLES : Nat := 100

/-- `ENERGY_WINDOW = 50`: number of samples used for energy analysis. -/
def ENERGY_WINDOW : Nat := 50

/-- Initial value of the adaptive threshold global `ENERGY_THRESHOLD`. -/
def ENERGY_THRESHOLD_INIT : ℚ := 500

/-- `ADAPT_RATE = 0.1`: learning rate for the threshold update. -/
def ADAPT_RATE : ℚ := 1/10

def EDGE_ANALYTICS_ENABLED : Bool := true

/-! ## Little-endian byte encoding (`int.to_bytes(n, 'little')`) -/

/-- Little-endian byte list of `v`, `w` bytes long (truncating above). -/
def leBytes : Nat → Nat → List Nat
  | 0, _ => []
  | w + 1, v => v % 256 :: leBytes w (v / 256)

/-- Python's `v.to_bytes(w, 'little')`: little-endian bytes when `v`
fits in `w` bytes, otherwise `none` (Python raises `OverflowError`). -/
def toBytesLE (v w : Nat) : Option (List Nat) :=
  if v < 256 ^ w then some (leBytes w v) else none

/-- Little-endian decoding of a byte list. -/
def decodeLE (bs : List Nat) : Nat :=
  bs.foldr (fun b acc => b + 256 * acc) 0

/-! ## WAV header construction (src/main.py lines 69-89)

`create_wav_header(sample_rate, num_samples)` builds the 44-byte RIFF
header.  `CHANNELS` and `BITS_PER_SAMPLE` are module constants.  ASCII
byte values: `RIFF` = 82,73,70,70; `WAVE` = 87,65,86,69;
`fmt ` = 102,109,116,32; `data` = 100,97,116,97. -/

def create_wav_header (sample_rate num_samples : Nat) : Option (List Nat) := do
  let byte_rate := sample_rate * CHANNELS * (BITS_PER_SAMPLE / 8)
  let block_align := CHANNELS * (BITS_PER_SAMPLE / 8)
  let data_size := num_samples * block_align
  let riffSize ← toBytesLE (36 + data_size) 4
  let fmtSize ← toBytesLE 16 4
  let audioFormat ← toBytesLE 1 2
  let nChannels ← toBytesLE CHANNELS 2
  let rate ← toBytesLE sample_rate 4
  let bytesPerSec ← toBytesLE byte_rate 4
  let align ← toBytesLE block_align 2
  let bits ← toBytesLE BITS_PER_SAMPLE 2
  let dataSize ← toBytesLE data_size 4
  pure ([82, 73, 70, 70] ++ riffSize ++ [87, 65, 86, 69] ++
        [102, 109, 116, 32] ++ fmtSize ++ audioFormat ++ nChannels ++
        rate ++ bytesPerSec ++ align ++ bits ++ [100, 97, 116, 97] ++ dataSize)

/-- The first 40 bytes of the header layout described by the spec
(everything before the final `data_size` field). -/
def wavHeaderFront (sample_rate num_samples : Nat) : List Nat :=
  [82, 73, 70, 70] ++
  leBytes 4 (36 + num_samples * (CHANNELS * (BITS_PER_SAMPLE / 8))) ++
  [87, 65, 86, 69] ++ [102, 109, 116, 32] ++
  leBytes 4 16 ++ leBytes 2 1 ++ leBytes 2 CHANNELS ++
  leBytes 4 sample_rate ++
  leBytes 4 (sample_rate * CHANNELS * (BITS_PER_SAMPLE / 8)) ++
  leBytes 2 (CHANNELS * (BITS_PER_SAMPLE / 8)) ++
  leBytes 2 BITS_PER_SAMPLE ++ [100, 97, 116, 97]

/-- The 44-byte header layout described by the spec: `"RIFF"`,
`36 + data_size`, `"WAVE"`, `"fmt "`, 16, audio-format 1, channel count,
sample rate, byte rate, block align, bits per sample, `"data"`,
`data_size = sample_count * block_align`, all little-endian. -/
def wavHeaderSpec (sample_rate num_samples : Nat) : List Nat :=
  wavHeaderFront sample_rate num_samples ++
  leBytes 4 (num_samples * (CHANNELS * (BITS_PER_SAMPLE / 8)))

/-! ## 16-bit sample encoding and decoding

MicroPython's `struct.pack('<h', v)` truncates `v` to its low 16 bits
without range checking; `struct.unpack('<h', frame)` reads two
little-endian bytes as a signed 16-bit value. -/

/-- `struct.pack('<h', s)`: the two little-endian bytes of `s mod 2^16`. -/
def packH (s : ℤ) : List Nat :=
  let u := (s % 65536).toNat
  [u % 256, u / 256]

/-- `struct.unpack('<h', bytes([b0, b1]))[0]`: signed little-endian. -/
def unpackH (b0 b1 : Nat) : ℤ :=
  let u : ℤ := b0 + 256 * b1
  if 32768 ≤ u then u - 65536 else u

/-- Decoding a packed sample recovers its balanced residue mod `2^16`. -/
def toSigned16 (s : ℤ) : ℤ :=
  let u := s % 65536
  if 32768 ≤ u then u - 65536 else u

/-! ## Storage file model

The capture file is a byte list plus a position; `open(..., 'wb')`
starts empty.  `f.write` overwrites in place from the current position
(all writes in `record_and_save` happen either at the end, appending, or
at position 0 over the existing header); `f.seek` moves the position. -/

structure FileState where
  pos : Nat
  data : List Nat
  deriving DecidableEq

def fwrite (f : FileState) (bs : List Nat) : FileState :=
  { pos := f.pos + bs.length,
    data := f.data.take f.pos ++ bs ++ f.data.drop (f.pos + bs.length) }

def fseek (f : FileState) (n : Nat) : FileState :=
  { f with pos := n }

/-! ## DC-offset calibration and sample capture (src/main.py lines 95-112) -/

/-- `dc_offset`: integer mean of the 100 unsigned calibration readings. -/
def dc_offset (cal : List Nat) : Nat :=
  cal.sum / DC_OFFSET_SAMPLES

/-- One captured sample: `mic.read_u16() - dc_offset` (a Python int). -/
def captured_sample (r off : Nat) : ℤ :=
  (r : ℤ) - off

/-! ## Edge energy analytics (src/main.py lines 126-145) -/

/-- The read-back loop: up to `n` two-byte frames from the bytes after
the header.  An empty read ends the loop (`if not frame: break`); a
single trailing byte would make `struct.unpack` raise (`none`). -/
def readWindow : Nat → List Nat → Option (List ℤ)
  | 0, _ => some []
  | _ + 1, [] => some []
  | _ + 1, [_] => none
  | n + 1, b0 :: b1 :: rest => (readWindow n rest).map (unpackH b0 b1 :: ·)

/-- `avg_energy = energy_sum / ENERGY_WINDOW`: the mean of the absolute
values of the decoded window samples, with the *fixed* divisor 50. -/
def avg_energy_of (tail : List Nat) : Option ℚ :=
  (readWindow ENERGY_WINDOW tail).map
    (fun samples => (((samples.map (fun s => |s|)).sum : ℤ) : ℚ) / (ENERGY_WINDOW : ℚ))

/-- The unconditional adaptive threshold update
`ENERGY_THRESHOLD = ENERGY_THRESHOLD * (1 - ADAPT_RATE) + avg_energy * ADAPT_RATE`. -/
def threshold_update (threshold avg_energy : ℚ) : ℚ :=
  threshold * (1 - ADAPT_RATE) + avg_energy * ADAPT_RATE

/-- The edge-analytics block: computes `avg_energy`, updates the
threshold, and returns the verdict (`False` iff
`avg_energy < ENERGY_THRESHOLD` after the update) with the new
threshold. -/
def edge_analytics (tail : List Nat) (threshold : ℚ) : Option (Bool × ℚ) :=
  (avg_energy_of tail).map (fun avg_energy =>
    let updated := threshold_update threshold avg_energy
    (!decide (avg_energy < updated), updated))

/-! ## Recording pipeline (src/main.py lines 95-147)

`record_and_save` is parameterised by the raw ADC readings: `cal` (the
100 calibration reads) and `readings` (one read per capture-loop
iteration).  It returns the Python return value (the speech verdict),
the final bytes of the capture file, and the updated global
`ENERGY_THRESHOLD`.  `none` models an uncaught exception
(`OverflowError` from `int.to_bytes`). -/

def record_and_save (cal readings : List Nat) (threshold : ℚ) :
    Option (Bool × List Nat × ℚ) := do
  let off := dc_offset cal
  let placeholder ← create_wav_header SAMPLE_RATE 0
  let f1 := fwrite ⟨0, []⟩ placeholder
  let f2 := readings.foldl (fun f r => fwrite f (packH (captured_sample r off))) f1
  let header ← create_wav_header SAMPLE_RATE readings.length
  let f3 := fwrite (fseek f2 0) header
  if EDGE_ANALYTICS_ENABLED then
    let f4 := fseek f3 44
    let (speech, updated) ← edge_analytics (f4.data.drop f4.pos) threshold
    pure (speech, f4.data, updated)
  else
    pure (true, f3.data, threshold)

/-! ## Session control loop (src/main.py lines 150-218)

External collaborator outcomes are supplied as `Except` values: an
`Except.error` stands for an exception raised inside the corresponding
step.  `record_and_save` (lines 95-147) has no `try`/`except`, and the
main `while True` loop (lines 200-218) has none either, so an exception
raised during capture propagates out of the loop.
`send_audio_to_server` (lines 153-170) and `play_wav` (lines 176-191)
both wrap their bodies in `try`/`except Exception`. -/

inductive Err
  | storage
  | transport
  | playback
  deriving DecidableEq

/-- What one main-loop iteration did after the capture returned. -/
structure SessionOutcome where
  transportInvoked : Bool
  playbackInvoked : Bool
  deriving DecidableEq

/-- `send_audio_to_server`: posts the clip; success is strictly
`status_code == 200`; any raised exception is caught and yields
`False`. -/
def send_audio_to_server (postResult : Except Err (Nat × List Nat)) : Bool :=
  match postResult with
  | Except.error _ => false
  | Except.ok (status, _) => status == 200

/-- One iteration of the button-pressed branch of the main loop:
`speech_detected = record_and_save(...)` (uncaught), then
`if speech_detected: s = send_audio_to_server(...); if s: play_wav(...)`.
Playback exceptions are swallowed inside `play_wav` itself. -/
def loop_body (captureResult : Except Err Bool)
    (postResult : Except Err (Nat × List Nat))
    (renderResult : Except Err Unit) : Except Err SessionOutcome := do
  let speech ← captureResult
  if speech then
    if send_audio_to_server postResult then
      let _ := renderResult
      pure ⟨true, true⟩
    else
      pure ⟨true, false⟩
  else
    pure ⟨false, false⟩

/-! ## Playback rendering (src/main.py lines 176-191) -/

/-- `duty = int((sample + 32768) / 65535 * 100)`.  The operand is
nonnegative for every decoded 16-bit sample (`s ≥ -32768`), where
Python's `int()` truncation coincides with the floor. -/
def duty_of (s : ℤ) : ℤ :=
  ⌊(((s : ℚ) + 32768) / 65535) * 100⌋

/-- Modelled from the spec's words: the same mapping with `round`
instead of truncation, for comparison with `duty_of`. -/
def duty_spec (s : ℤ) : ℤ :=
  round ((((s : ℚ) + 32768) / 65535) * 100)

/-- The playback frame loop: two bytes per frame, an empty read ends the
loop, a lone trailing byte makes `struct.unpack` raise (`none`). -/
def play_frames : List Nat → Option (List ℤ)
  | [] => some []
  | [_] => none
  | b0 :: b1 :: rest => (play_frames rest).map (duty_of (unpackH b0 b1) :: ·)

/-- `play_wav`: skips the 44-byte header and returns the sequence of PWM
duty values driven to the speaker. -/
def play_wav (bytes : List Nat) : Option (List ℤ) :=
  play_frames (bytes.drop 44)

/-! # Theorems -/

/-! ## Byte-encoding lemmas -/

theorem leBytes_length (w v : Nat) : (leBytes w v).length = w := by
  induction w generalizing v with
  | zero => rfl
  | succ w ih => simp [leBytes, ih]

theorem decodeLE_leBytes (w v : Nat) (h : v < 256 ^ w) :
    decodeLE (leBytes w v) = v := by
  induction w generalizing v with
  | zero => simpa [leBytes, decodeLE] using (Nat.lt_one_iff.mp (by simpa using h)).symm
  | succ w ih =>
      have hdiv : v / 256 < 256 ^ w := by
        rw [Nat.div_lt_iff_lt_mul (by norm_num)]
        calc v < 256 ^ (w + 1) := h
        _ = 256 ^ w * 256 := by ring
      have := ih (v / 256) hdiv
      simp only [leBytes, decodeLE, List.foldr_cons] at *
      rw [this]
      exact Nat.mod_add_div v 256

theorem packH_length (s : ℤ) : (packH s).length = 2 := rfl

theorem unpackH_packH (s : ℤ) :
    unpackH ((packH s).headI) ((packH s).tail.headI) = toSigned16 s := by
  have h0 : 0 ≤ s % 65536 := Int.emod_nonneg s (by norm_num)
  have h1 : s % 65536 < 65536 := Int.emod_lt_of_pos s (by norm_num)
  have htn : ((s % 65536).toNat : ℤ) = s % 65536 := Int.toNat_of_nonneg h0
  simp only [packH, unpackH, toSigned16, List.headI, List.tail]
  have hu : ((s % 65536).toNat % 256 : ℤ) + 256 * ((s % 65536).toNat / 256) =
      s % 65536 := by
    have := Nat.mod_add_div ((s % 65536).toNat) 256
    omega
  rw [show (((s % 65536).toNat % 256 : Nat) : ℤ) + 256 * (((s % 65536).toNat / 256 : Nat) : ℤ) =
      s % 65536 by push_cast at hu ⊢; omega]

/-- A value already in the signed 16-bit domain decodes to itself. -/
theorem toSigned16_eq_self (s : ℤ) (hlo : -32768 ≤ s) (hhi : s < 32768) :
    toSigned16 s = s := by
  unfold toSigned16
  rcases le_or_lt 0 s with hs | hs
  · have : s % 65536 = s := Int.emod_eq_of_lt hs (by omega)
    rw [this, if_neg (by omega)]
  · have : s % 65536 = s + 65536 := by omega
    rw [this, if_pos (by omega)]
    omega

/-! ## Header lemmas -/

theorem wavHeaderFront_length (sr n : Nat) :
    (wavHeaderFront sr n).length = 40 := by
  simp [wavHeaderFront, leBytes_length]

theorem wavHeaderSpec_length (sr n : Nat) :
    (wavHeaderSpec sr n).length = 44 := by
  simp [wavHeaderSpec, wavHeaderFront_length, leBytes_length]

/-- The header builder succeeds and produces the spec layout whenever the
two variable 32-bit fields fit. -/
theorem create_wav_header_eq (sr n : Nat)
    (h1 : 36 + n * 2 < 256 ^ 4) (h2 : sr * 2 < 256 ^ 4) :
    create_wav_header sr n = some (wavHeaderSpec sr n) := by
  have hsr : sr < 256 ^ 4 := lt_of_le_of_lt (Nat.le_mul_of_pos_right sr (by norm_num)) h2
  simp only [create_wav_header, toBytesLE, CHANNELS, BITS_PER_SAMPLE, SAMPLE_RATE] at *
  norm_num at *
  have h3 : n * 2 < 4294967296 := by omega
  simp only [if_pos h1, if_pos h2, if_pos hsr, if_pos h3]
  simp [wavHeaderSpec, wavHeaderFront, CHANNELS, BITS_PER_SAMPLE]

/-! ## File-model lemmas -/

theorem fwrite_append (f : FileState) (bs : List Nat)
    (h : f.pos = f.data.length) :
    (fwrite f bs).data = f.data ++ bs ∧
      (fwrite f bs).pos = (fwrite f bs).data.length := by
  simp [fwrite, h, List.take_length, List.drop_eq_nil_of_le]

/-- The capture loop only appends: folding writes over the readings
extends the file by the concatenated frames. -/
theorem foldl_fwrite_data {α : Type} (g : α → List Nat) (l : List α)
    (f : FileState) (h : f.pos = f.data.length) :
    (l.foldl (fun a r => fwrite a (g r)) f).data = f.data ++ (l.map g).flatten := by
  induction l generalizing f with
  | nil => simp
  | cons r rest ih =>
      obtain ⟨hd, hp⟩ := fwrite_append f (g r) h
      simp only [List.foldl_cons, List.map_cons, List.flatten_cons]
      rw [ih (fwrite f (g r)) hp, hd, List.append_assoc]

/-! ## Recording pipeline lemmas -/

/-- Closed form of `record_and_save`: the final file is the backpatched
header followed by the packed frames, and the verdict and threshold come
from the edge-analytics block applied to the bytes after offset 44. -/
theorem record_and_save_eq (cal readings : List Nat) (t : ℚ)
    (hn : 36 + readings.length * 2 < 256 ^ 4) :
    record_and_save cal readings t =
      (edge_analytics
          ((readings.map (fun r => packH (captured_sample r (dc_offset cal)))).flatten) t).map
        (fun p => (p.1,
          wavHeaderSpec SAMPLE_RATE readings.length ++
            (readings.map (fun r => packH (captured_sample r (dc_offset cal)))).flatten,
          p.2)) := by
  have hph : create_wav_header SAMPLE_RATE 0 = some (wavHeaderSpec SAMPLE_RATE 0) :=
    create_wav_header_eq _ _ (by norm_num) (by norm_num [SAMPLE_RATE])
  have hhd : create_wav_header SAMPLE_RATE readings.length =
      some (wavHeaderSpec SAMPLE_RATE readings.length) :=
    create_wav_header_eq _ _ hn (by norm_num [SAMPLE_RATE])
  have hlen0 : (wavHeaderSpec SAMPLE_RATE 0).length = 44 := wavHeaderSpec_length _ _
  have hlenN : (wavHeaderSpec SAMPLE_RATE readings.length).length = 44 :=
    wavHeaderSpec_length _ _
  set F := (readings.map (fun r => packH (captured_sample r (dc_offset cal)))).flatten with hF
  have h1 : fwrite ⟨0, []⟩ (wavHeaderSpec SAMPLE_RATE 0) =
      ⟨44, wavHeaderSpec SAMPLE_RATE 0⟩ := by
    simp [fwrite, hlen0]
  simp only [record_and_save, hph, hhd, Option.bind_eq_bind, Option.some_bind,
    EDGE_ANALYTICS_ENABLED, if_true]
  rw [h1]
  obtain ⟨D, hD⟩ : ∃ D, readings.foldl
      (fun f r => fwrite f (packH (captured_sample r (dc_offset cal))))
      ⟨44, wavHeaderSpec SAMPLE_RATE 0⟩ = D := ⟨_, rfl⟩
  have hDdata : D.data = wavHeaderSpec SAMPLE_RATE 0 ++ F := by
    rw [← hD]
    exact foldl_fwrite_data _ readings _ (by simp [hlen0])
  rw [hD]
  simp only [fseek]
  have h3 : (fwrite { pos := 0, data := D.data }
      (wavHeaderSpec SAMPLE_RATE readings.length)).data =
      wavHeaderSpec SAMPLE_RATE readings.length ++ F := by
    simp only [fwrite, hDdata]
    rw [List.take_zero, List.nil_append, Nat.zero_add, hlenN, List.drop_left' hlen0]
  rw [h3, List.drop_left' hlenN]
  cases edge_analytics F t with
  | none => rfl
  | some p => rfl

/-- Reading back a window from packed frames always succeeds and decodes
the leading `n` samples (sign-extended from their low 16 bits). -/
theorem readWindow_flatten (n : Nat) (l : List ℤ) :
    readWindow n ((l.map packH).flatten) = some ((l.take n).map toSigned16) := by
  induction n generalizing l with
  | zero => simp [readWindow]
  | succ n ih =>
      cases l with
      | nil => simp [readWindow]
      | cons s rest =>
          have hs := unpackH_packH s
          simp only [packH, List.headI, List.tail] at hs
          simp only [List.map_cons, List.flatten_cons, packH, List.cons_append,
            List.nil_append, List.append_eq]
          simp [readWindow, ih rest, hs, List.take_succ_cons]

/-- The packed frames occupy exactly two bytes per captured sample. -/
theorem length_flatten_packH (l : List ℤ) :
    ((l.map packH).flatten).length = 2 * l.length := by
  induction l with
  | nil => rfl
  | cons s rest ih =>
      simp only [List.map_cons, List.flatten_cons, List.length_append, ih,
        packH_length, List.length_cons]
      ring

/-! ## Analyzer lemmas -/

/-- The verdict of the analytics block equals the comparison of the
average energy against the threshold value *before* the update: the code
compares against the updated threshold, but
`avg - updated = (1 - ADAPT_RATE) * (avg - threshold)`, so in exact
arithmetic the two comparisons agree. -/
theorem edge_analytics_fst (tail : List Nat) (t : ℚ) :
    (edge_analytics tail t).map Prod.fst =
      (avg_energy_of tail).map (fun avg => decide (t ≤ avg)) := by
  unfold edge_analytics
  cases avg_energy_of tail with
  | none => rfl
  | some avg =>
      simp only [Option.map_some']
      congr 1
      show (!decide (avg < threshold_update t avg)) = decide (t ≤ avg)
      have hiff : ¬(avg < threshold_update t avg) ↔ (t ≤ avg) := by
        unfold threshold_update ADAPT_RATE
        rw [not_lt]
        constructor <;> intro h <;> nlinarith
      rw [← decide_not]
      exact decide_eq_decide.mpr hiff

/-- Concrete evaluation: a one-sample clip with value 100 yields
`avg_energy = 100 / 50 = 2`. -/
theorem avg_energy_packH_100 : avg_energy_of (packH 100) = some 2 := by
  have h : packH 100 = (([100] : List ℤ).map packH).flatten := rfl
  rw [h]
  unfold avg_energy_of
  rw [readWindow_flatten]
  norm_num [toSigned16, ENERGY_WINDOW]

/-! ## Claim theorems -/

/-- C1: for every call to the energy analyzer, the speech/silence
verdict equals `avg_energy >= threshold` evaluated at the pre-update
threshold value.  (The source compares against the already-updated
threshold, but the two comparisons coincide in exact arithmetic since
the update is a convex combination of the old threshold and
`avg_energy`.) -/
theorem C1_verdict_pre_update_threshold (tail : List Nat) (t : ℚ) :
    (edge_analytics tail t).map Prod.fst =
      (avg_energy_of tail).map (fun avg => decide (avg ≥ t)) := by
  simpa [ge_iff_le] using edge_analytics_fst tail t

/-- C2 counterexample: a clip holding a single sample of value 100 gives
`avg_energy = 100 / 50 = 2`, not the arithmetic mean `100 / 1` over the
one sample actually read — the divisor is the fixed `ENERGY_WINDOW`. -/
theorem C2_counterexample :
    avg_energy_of (packH 100) = some 2 ∧ (2 : ℚ) ≠ 100 / 1 := by
  constructor
  · exact avg_energy_packH_100
  · norm_num

/-- C2 (amended): `avg_energy` is the sum of the absolute values of the
samples actually read (at most `ENERGY_WINDOW`), always divided by the
fixed window size 50, even when fewer than 50 samples are available. -/
theorem C2_fixed_divisor (l : List ℤ)
    (h : ∀ s ∈ l, -32768 ≤ s ∧ s < 32768) :
    avg_energy_of ((l.map packH).flatten) =
      some (((((l.take ENERGY_WINDOW).map (fun s => |s|)).sum : ℤ) : ℚ) /
        (ENERGY_WINDOW : ℚ)) := by
  unfold avg_energy_of
  rw [readWindow_flatten]
  simp only [Option.map_some']
  have hmap : ((l.take ENERGY_WINDOW).map toSigned16).map (fun s => |s|) =
      (l.take ENERGY_WINDOW).map (fun s => |s|) := by
    rw [List.map_map]
    apply List.map_congr_left
    intro s hs
    have hm := h s (List.take_subset _ _ hs)
    simp [Function.comp, toSigned16_eq_self s hm.1 hm.2]
  rw [hmap]

theorem C2_fixed_divisor_witness :
    avg_energy_of ((([100] : List ℤ).map packH).flatten) =
      some (((((([100] : List ℤ).take ENERGY_WINDOW).map (fun s => |s|)).sum : ℤ) : ℚ) /
        (ENERGY_WINDOW : ℚ)) := by
  exact C2_fixed_divisor [100] (by decide)

/-- C7: when the average energy is exactly equal to the pre-update
threshold, the verdict is speech (`>=`, not strict `>`). -/
theorem C7_boundary_is_speech (tail : List Nat) (t : ℚ)
    (h : avg_energy_of tail = some t) :
    (edge_analytics tail t).map Prod.fst = some true := by
  have heq := edge_analytics_fst tail t
  rw [h] at heq
  simpa using heq

theorem C7_boundary_is_speech_witness :
    (edge_analytics (packH 100) 2).map Prod.fst = some true :=
  C7_boundary_is_speech (packH 100) 2 avg_energy_packH_100

/-- C9: on every call the analyzer updates the threshold to
`threshold * (1 - ADAPT_RATE) + avg_energy * ADAPT_RATE`, regardless of
the verdict, and from threshold 500 and average energy 1000 the
post-call threshold is exactly 550. -/
theorem C9_threshold_update_unconditional :
    (∀ (tail : List Nat) (t : ℚ),
        (edge_analytics tail t).map Prod.snd =
          (avg_energy_of tail).map (fun avg => threshold_update t avg)) ∧
      threshold_update 500 1000 = 550 := by
  constructor
  · intro tail t
    unfold edge_analytics
    cases avg_energy_of tail with
    | none => rfl
    | some avg => rfl
  · unfold threshold_update ADAPT_RATE
    norm_num

/-- C8: a clip whose leading `ENERGY_WINDOW` samples are all zero, with
a positive threshold, yields a silence verdict, and the main loop then
skips the transport (and playback) entirely. -/
theorem C8_silence_skips_transport (cal readings : List Nat) (t : ℚ)
    (ht : 0 < t) (_hlen : ENERGY_WINDOW ≤ readings.length)
    (hz : ∀ r ∈ readings.take ENERGY_WINDOW, captured_sample r (dc_offset cal) = 0)
    (hn : 36 + readings.length * 2 < 256 ^ 4) :
    (∃ data updated, record_and_save cal readings t = some (false, data, updated)) ∧
      ∀ (post : Except Err (Nat × List Nat)) (render : Except Err Unit),
        loop_body (Except.ok false) post render = Except.ok ⟨false, false⟩ := by
  constructor
  · rw [record_and_save_eq cal readings t hn]
    have hFe : (readings.map (fun r => packH (captured_sample r (dc_offset cal)))).flatten =
        (((readings.map (fun r => captured_sample r (dc_offset cal))).map packH)).flatten := by
      rw [List.map_map]
      rfl
    have havg : avg_energy_of
        ((readings.map (fun r => packH (captured_sample r (dc_offset cal)))).flatten) =
        some 0 := by
      rw [hFe]
      unfold avg_energy_of
      rw [readWindow_flatten]
      have hsum : ((((readings.map (fun r => captured_sample r (dc_offset cal))).take
          ENERGY_WINDOW).map toSigned16).map (fun s => |s|)).sum = 0 := by
        apply List.sum_eq_zero
        intro x hx
        simp only [List.map_map, List.mem_map] at hx
        obtain ⟨s, hs, rfl⟩ := hx
        rw [← List.map_take] at hs
        obtain ⟨r, hr, rfl⟩ := List.mem_map.mp hs
        rw [hz r hr]
        norm_num [Function.comp, toSigned16]
      rw [Option.map_some', hsum]
      norm_num
    have hpos : (0 : ℚ) < threshold_update t 0 := by
      unfold threshold_update ADAPT_RATE
      nlinarith
    have hE : edge_analytics
        ((readings.map (fun r => packH (captured_sample r (dc_offset cal)))).flatten) t =
        some (false, threshold_update t 0) := by
      unfold edge_analytics
      rw [havg, Option.map_some']
      have hdec : decide ((0 : ℚ) < threshold_update t 0) = true := decide_eq_true hpos
      simp only [hdec, Bool.not_true]
    rw [hE, Option.map_some']
    exact ⟨_, _, rfl⟩
  · intro post render
    rfl

/-- C6: after every completed capture the backpatched header's declared
data size (bytes 40-43, little-endian) equals twice the number of
captured samples, which equals the number of bytes physically present
past offset 44 — one 2-byte frame per sample. -/
theorem C6_backpatched_header_consistent (cal readings : List Nat) (t : ℚ)
    (hn : 36 + readings.length * 2 < 256 ^ 4) :
    ∃ speech data updated,
      record_and_save cal readings t = some (speech, data, updated) ∧
        decodeLE ((data.drop 40).take 4) = readings.length * 2 ∧
        (data.drop 44).length = readings.length * 2 := by
  rw [record_and_save_eq cal readings t hn]
  have hFe : (readings.map (fun r => packH (captured_sample r (dc_offset cal)))).flatten =
      (((readings.map (fun r => captured_sample r (dc_offset cal))).map packH)).flatten := by
    rw [List.map_map]
    rfl
  obtain ⟨avg, havg⟩ : ∃ avg,
      avg_energy_of ((readings.map
        (fun r => packH (captured_sample r (dc_offset cal)))).flatten) = some avg := by
    rw [hFe]
    unfold avg_energy_of
    rw [readWindow_flatten]
    exact ⟨_, rfl⟩
  have hE : edge_analytics ((readings.map
      (fun r => packH (captured_sample r (dc_offset cal)))).flatten) t =
      some (!decide (avg < threshold_update t avg), threshold_update t avg) := by
    unfold edge_analytics
    rw [havg, Option.map_some']
  rw [hE, Option.map_some']
  refine ⟨_, _, _, rfl, ?_, ?_⟩
  · have hc2 : CHANNELS * (BITS_PER_SAMPLE / 8) = 2 := by decide
    have hdrop : (wavHeaderSpec SAMPLE_RATE readings.length ++
        (readings.map (fun r => packH (captured_sample r (dc_offset cal)))).flatten).drop 40 =
        leBytes 4 (readings.length * (CHANNELS * (BITS_PER_SAMPLE / 8))) ++
          (readings.map (fun r => packH (captured_sample r (dc_offset cal)))).flatten := by
      unfold wavHeaderSpec
      rw [List.append_assoc]
      exact List.drop_left' (wavHeaderFront_length _ _)
    rw [hdrop, List.take_left' (leBytes_length 4 _), hc2, decodeLE_leBytes]
    omega
  · rw [List.drop_left' (wavHeaderSpec_length _ _), hFe, length_flatten_packH,
      List.length_map]
    ring

theorem C6_backpatched_header_consistent_witness :
    ∃ speech data updated,
      record_and_save (List.replicate 100 0) [1, 2] 500 = some (speech, data, updated) ∧
        decodeLE ((data.drop 40).take 4) = ([1, 2] : List Nat).length * 2 ∧
        (data.drop 44).length = ([1, 2] : List Nat).length * 2 :=
  C6_backpatched_header_consistent (List.replicate 100 0) [1, 2] 500 (by norm_num)

theorem C8_silence_skips_transport_witness :
    (∃ data updated,
        record_and_save (List.replicate 100 0) (List.replicate 50 0) 500 =
          some (false, data, updated)) ∧
      ∀ (post : Except Err (Nat × List Nat)) (render : Except Err Unit),
        loop_body (Except.ok false) post render = Except.ok ⟨false, false⟩ :=
  C8_silence_skips_transport (List.replicate 100 0) (List.replicate 50 0) 500
    (by norm_num) (by decide)
    (by
      intro r hr
      rw [List.eq_of_mem_replicate (List.take_subset _ _ hr)]
      decide)
    (by decide)

/-- C3 counterexample: an exception raised inside the capture step
(`record_and_save` has no `try`/`except`, and neither does the main
loop) propagates out of the loop-body iteration instead of aborting only
the session. -/
theorem C3_counterexample :
    loop_body (Except.error Err.storage) (Except.ok (200, [])) (Except.ok ()) =
      Except.error Err.storage := rfl

/-- C3 (amended): errors raised inside the transmit or playback steps
are caught by their own handlers and never escape the loop iteration,
but an error raised inside capture propagates out of the control
loop uncaught. -/
theorem C3_error_containment :
    (∀ (speech : Bool) (post : Except Err (Nat × List Nat)) (render : Except Err Unit),
        ∃ o, loop_body (Except.ok speech) post render = Except.ok o) ∧
      ∀ (e : Err) (post : Except Err (Nat × List Nat)) (render : Except Err Unit),
        loop_body (Except.error e) post render = Except.error e := by
  constructor
  · intro speech post render
    cases speech with
    | false => exact ⟨⟨false, false⟩, rfl⟩
    | true =>
        cases hsend : send_audio_to_server post with
        | false => exact ⟨⟨true, false⟩, by simp [loop_body, hsend]; rfl⟩
        | true => exact ⟨⟨true, true⟩, by simp [loop_body, hsend]; rfl⟩
  · intro e post render
    rfl

/-- C4 counterexample: with a DC offset calibrated from all-zero
readings, a maximal raw reading 65535 yields a stored sample of 65535,
outside the signed 16-bit domain `[-32768, 32767]`. -/
theorem C4_counterexample :
    captured_sample 65535 (dc_offset (List.replicate 100 0)) = 65535 ∧
      ¬captured_sample 65535 (dc_offset (List.replicate 100 0)) ≤ 32767 := by
  constructor <;> decide

/-- C4 (amended): for unsigned 16-bit ADC readings and a DC offset that
is the integer mean of 100 such readings, the stored sample lies in
`[-65535, 65535]` — not necessarily in the signed 16-bit domain — and
the (truncating) 16-bit encoding always yields exactly two bytes. -/
theorem C4_sample_range (cal : List Nat) (r : Nat)
    (hlen : cal.length = DC_OFFSET_SAMPLES)
    (hcal : ∀ x ∈ cal, x ≤ 65535) (hr : r ≤ 65535) :
    -65535 ≤ captured_sample r (dc_offset cal) ∧
      captured_sample r (dc_offset cal) ≤ 65535 ∧
      (packH (captured_sample r (dc_offset cal))).length = 2 := by
  have hsum : cal.sum ≤ 100 * 65535 := by
    have h := List.sum_le_card_nsmul cal 65535 hcal
    rw [hlen] at h
    simpa [DC_OFFSET_SAMPLES] using h
  have hoff : dc_offset cal ≤ 65535 := by
    unfold dc_offset DC_OFFSET_SAMPLES
    omega
  refine ⟨?_, ?_, packH_length _⟩ <;> unfold captured_sample <;> omega

theorem C4_sample_range_witness :
    -65535 ≤ captured_sample 0 (dc_offset (List.replicate 100 0)) ∧
      captured_sample 0 (dc_offset (List.replicate 100 0)) ≤ 65535 ∧
      (packH (captured_sample 0 (dc_offset (List.replicate 100 0)))).length = 2 :=
  C4_sample_range (List.replicate 100 0) 0 (by decide)
    (fun x hx => by rw [List.eq_of_mem_replicate hx]; exact Nat.zero_le _)
    (by norm_num)

/-- C5 counterexample: at `num_samples = 2 ^ 31` the RIFF-size field
`36 + data_size` exceeds `2 ^ 32`, so `int.to_bytes(4, 'little')`
raises `OverflowError` and the builder does not return 44 bytes. -/
theorem C5_counterexample : create_wav_header 8000 (2 ^ 31) = none := rfl

/-- C5 (amended): whenever the two variable 4-byte fields fit
(`36 + 2 * num_samples < 2 ^ 32` and `2 * sample_rate < 2 ^ 32`), the
builder returns exactly the 44-byte structure described by the spec:
RIFF, 36 + data_size, WAVE, "fmt ", 16, format 1, channels, sample rate,
byte rate, block align, bits per sample, "data", data_size. -/
theorem C5_header_structure (sr n : Nat)
    (h1 : 36 + n * 2 < 256 ^ 4) (h2 : sr * 2 < 256 ^ 4) :
    create_wav_header sr n = some (wavHeaderSpec sr n) ∧
      (wavHeaderSpec sr n).length = 44 :=
  ⟨create_wav_header_eq sr n h1 h2, wavHeaderSpec_length sr n⟩

theorem C5_header_structure_witness :
    create_wav_header 8000 40000 = some (wavHeaderSpec 8000 40000) ∧
      (wavHeaderSpec 8000 40000).length = 44 :=
  C5_header_structure 8000 40000 (by norm_num) (by norm_num)

/-- C10 counterexample: at sample `-32440` the code's truncating
conversion gives duty 0 while the spec's `round` gives 1
(`328 * 100 / 65535 = 0.5004...`). -/
theorem C10_counterexample :
    duty_of (-32440) = 0 ∧ duty_spec (-32440) = 1 ∧
      duty_of (-32440) ≠ duty_spec (-32440) := by
  have h1 : duty_of (-32440) = 0 := by
    unfold duty_of
    rw [Int.floor_eq_zero_iff, Set.mem_Ico]
    norm_num
  have h2 : duty_spec (-32440) = 1 := by
    unfold duty_spec
    rw [round_eq, Int.floor_eq_iff]
    push_cast
    norm_num
  exact ⟨h1, h2, by rw [h1, h2]; norm_num⟩

/-- C10 (amended): the PWM duty value is the *floor* (Python `int()`
truncation) of `(sample + 32768) / 65535 * 100`, bounded by `[0, 100]`
on the signed 16-bit domain, with `-32768` mapping to 0 and `32767`
mapping to 100. -/
theorem C10_truncating_duty (s : ℤ) (hlo : -32768 ≤ s) (hhi : s ≤ 32767) :
    65535 * duty_of s ≤ (s + 32768) * 100 ∧
      (s + 32768) * 100 < 65535 * (duty_of s + 1) ∧
      0 ≤ duty_of s ∧ duty_of s ≤ 100 ∧
      duty_of (-32768) = 0 ∧ duty_of 32767 = 100 := by
  set q : ℚ := (((s : ℚ) + 32768) / 65535) * 100 with hq
  have hdq : duty_of s = ⌊q⌋ := rfl
  have hmul : (65535 : ℚ) * q = (((s : ℚ) + 32768)) * 100 := by
    rw [hq]
    field_simp
  have hs0 : (0 : ℚ) ≤ (s : ℚ) + 32768 := by
    exact_mod_cast (by omega : (0 : ℤ) ≤ s + 32768)
  have hs1 : (s : ℚ) + 32768 ≤ 65535 := by
    exact_mod_cast (by omega : s + 32768 ≤ (65535 : ℤ))
  have hq0 : 0 ≤ q := by
    rw [hq]
    exact mul_nonneg (div_nonneg hs0 (by norm_num)) (by norm_num)
  have hq100 : q ≤ 100 := by
    rw [hq, div_mul_eq_mul_div, div_le_iff₀ (by norm_num : (0 : ℚ) < 65535)]
    nlinarith
  refine ⟨?_, ?_, ?_, ?_, ?_, ?_⟩
  · have h1 : (65535 : ℚ) * (⌊q⌋ : ℚ) ≤ ((s : ℚ) + 32768) * 100 := by
      rw [← hmul]
      have := Int.floor_le q
      nlinarith
    rw [hdq]
    exact_mod_cast h1
  · have h2 : ((s : ℚ) + 32768) * 100 < 65535 * ((⌊q⌋ : ℚ) + 1) := by
      rw [← hmul]
      have := Int.lt_floor_add_one q
      nlinarith
    rw [hdq]
    exact_mod_cast h2
  · rw [hdq]
    exact Int.floor_nonneg.mpr hq0
  · rw [hdq]
    calc ⌊q⌋ ≤ ⌊(100 : ℚ)⌋ := Int.floor_le_floor hq100
    _ = 100 := by norm_num
  · norm_num [duty_of]
  · norm_num [duty_of]

theorem C10_truncating_duty_witness :
    65535 * duty_of 0 ≤ ((0 : ℤ) + 32768) * 100 ∧
      ((0 : ℤ) + 32768) * 100 < 65535 * (duty_of 0 + 1) ∧
      0 ≤ duty_of 0 ∧ duty_of 0 ≤ 100 ∧
      duty_of (-32768) = 0 ∧ duty_of 32767 = 100 :=
  C10_truncating_duty 0 (by norm_num) (by norm_num)

end AIChatBox
